import Mathlib

/-!
# Verification of the activation layer (`src/hw3/src/activations.cpp`)

Shallow embedding of the activation-layer core of a feed-forward neural
network library: six activation functions (Linear, Logistic, Tanh, ReLU,
LeakyReLU, Softmax), each with a forward and a backward pass, the softmax
Jacobian helper, and the two dispatchers `forward_activate_matrix` /
`backward_activate_matrix`.

Matrix entries (C `double`) are modelled as exact rationals `ℚ`; the
library functions `exp` and `tanh` from `<cmath>` are external collaborators
and appear as abstract function parameters `fexp`, `ftanh : ℚ → ℚ`.
Assertion failures (`assert`, `assert_same_size`) are fatal,
non-recoverable contract errors in the C++ code; fallible functions are
embedded as `Option`-returning, with `none` for an assertion failure.
-/

namespace HW3

/-- Modelled from the spec: the matrix collaborator (`matrix.h`, not under
`src/`) provides a dense, row-major, fixed-size 2D array of doubles with
`rows` and `cols` fixed at construction, treated as a value type. We record
the two dimensions and the entry function; only entries `i < rows`,
`j < cols` are meaningful. -/
structure Matrix where
  rows : ℕ
  cols : ℕ
  entry : ℕ → ℕ → ℚ

/-- Modelled from the spec: `assert_same_size(a, b)` (from the matrix
collaborator) is a fatal contract check that the two matrices have
identical dimensions. -/
def Matrix.same_size (a b : Matrix) : Prop :=
  a.rows = b.rows ∧ a.cols = b.cols

instance (a b : Matrix) : Decidable (a.same_size b) :=
  inferInstanceAs (Decidable (_ ∧ _))

/-- Modelled from the spec: `get_row(i)` extracts row `i` as a 1-row
matrix. -/
def Matrix.get_row (m : Matrix) (i : ℕ) : Matrix :=
  ⟨1, m.cols, fun _ j => m.entry i j⟩

/-- Modelled from the spec: matrix transpose from the matrix
collaborator. -/
def Matrix.transpose (m : Matrix) : Matrix :=
  ⟨m.cols, m.rows, fun i j => m.entry j i⟩

/-- Modelled from the spec: matrix multiplication from the matrix
collaborator (`a * b`, inner dimension `a.cols`). -/
def Matrix.mul (a b : Matrix) : Matrix :=
  ⟨a.rows, b.cols, fun i j => ∑ k in Finset.range a.cols, a.entry i k * b.entry k j⟩

/-- Modelled from the spec: matrix subtraction from the matrix
collaborator (`a - b`, entrywise). -/
def Matrix.sub (a b : Matrix) : Matrix :=
  ⟨a.rows, a.cols, fun i j => a.entry i j - b.entry i j⟩

/-- The elementwise loops in `activations.cpp` run over the flat row-major
buffer, `for (long i = 0; i < rows*cols; i++) buf[i] = f(buf[i])`; flat
index `k = i*cols + j` ranges exactly over the in-bounds positions
`i < rows`, `j < cols`, so the loop is the guarded pointwise map (entries
outside the bounds are untouched junk). -/
def Matrix.mapEntries (m : Matrix) (f : ℚ → ℚ) : Matrix :=
  ⟨m.rows, m.cols, fun i j =>
    if i < m.rows ∧ j < m.cols then f (m.entry i j) else m.entry i j⟩

/-- Modelled from the spec: the closed activation-kind enumeration from
`neural.h` (not under `src/`): {Linear, Logistic, Tanh, ReLU, LeakyReLU,
Softmax}. -/
inductive Activation where
  | LINEAR
  | LOGISTIC
  | TANH
  | RELU
  | LRELU
  | SOFTMAX
deriving DecidableEq

/-- `forward_linear`: `Matrix activated = matrix; return activated;` —
the identity, via a value copy. -/
def forward_linear (matrix : Matrix) : Matrix :=
  matrix

/-- `backward_linear`: asserts same size, then returns a copy of
`prev_grad` unchanged. -/
def backward_linear (out : Matrix) (prev_grad : Matrix) : Option Matrix :=
  if prev_grad.same_size out then some prev_grad else none

/-- `forward_logistic`: elementwise `fx = 1.0 / (1.0 + exp(-1.0 * x))`. -/
def forward_logistic (fexp : ℚ → ℚ) (matrix : Matrix) : Matrix :=
  matrix.mapEntries (fun x => 1 / (1 + fexp (-1 * x)))

/-- `backward_logistic`: asserts same size, then elementwise
`grad = next * fdot` with `fdot = f * (1.0 - f)`, `f` the activated
output. -/
def backward_logistic (out : Matrix) (prev_grad : Matrix) : Option Matrix :=
  if prev_grad.same_size out then
    some ⟨prev_grad.rows, prev_grad.cols, fun i j =>
      if i < prev_grad.rows ∧ j < prev_grad.cols then
        prev_grad.entry i j * (out.entry i j * (1 - out.entry i j))
      else prev_grad.entry i j⟩
  else none

/-- `forward_tanh`: elementwise `fx = tanh(x)`. -/
def forward_tanh (ftanh : ℚ → ℚ) (matrix : Matrix) : Matrix :=
  matrix.mapEntries ftanh

/-- `backward_tanh`: asserts same size, then elementwise
`fdot = 1 - pow(f, 2)`. -/
def backward_tanh (out : Matrix) (prev_grad : Matrix) : Option Matrix :=
  if prev_grad.same_size out then
    some ⟨prev_grad.rows, prev_grad.cols, fun i j =>
      if i < prev_grad.rows ∧ j < prev_grad.cols then
        prev_grad.entry i j * (1 - out.entry i j ^ 2)
      else prev_grad.entry i j⟩
  else none

/-- `forward_relu`: elementwise `fx = x > 0.0 ? x : 0.0`. -/
def forward_relu (matrix : Matrix) : Matrix :=
  matrix.mapEntries (fun x => if x > 0 then x else 0)

/-- `backward_relu`: asserts same size, then elementwise
`fdot = f < 0.0 ? 0.0 : 1.0` evaluated on the activated output `f`. -/
def backward_relu (out : Matrix) (prev_grad : Matrix) : Option Matrix :=
  if prev_grad.same_size out then
    some ⟨prev_grad.rows, prev_grad.cols, fun i j =>
      if i < prev_grad.rows ∧ j < prev_grad.cols then
        prev_grad.entry i j * (if out.entry i j < 0 then 0 else 1)
      else prev_grad.entry i j⟩
  else none

/-- `forward_lrelu`: elementwise `fx = x > 0.0 ? x : 0.01 * x`. -/
def forward_lrelu (matrix : Matrix) : Matrix :=
  matrix.mapEntries (fun x => if x > 0 then x else 0.01 * x)

/-- `backward_lrelu`: asserts same size, then elementwise
`fdot = f < 0.0 ? 0.01 : 1.0` evaluated on the activated output `f`. -/
def backward_lrelu (out : Matrix) (prev_grad : Matrix) : Option Matrix :=
  if prev_grad.same_size out then
    some ⟨prev_grad.rows, prev_grad.cols, fun i j =>
      if i < prev_grad.rows ∧ j < prev_grad.cols then
        prev_grad.entry i j * (if out.entry i j < 0 then 0.01 else 1)
      else prev_grad.entry i j⟩
  else none

/-- The running sum accumulated by the first loop of `forward_softmax` for
row `i`: `sum += exp(x)` over the columns in order. -/
def rowExpSum (fexp : ℚ → ℚ) (m : Matrix) (i : ℕ) : ℚ :=
  (List.range m.cols).foldl (fun s j => s + fexp (m.entry i j)) 0

/-- `forward_softmax`: per row, a first loop writes `exp(x)` into every
column while accumulating `sum`, then a second loop replaces each written
value `x` by `sum == 0 ? 0 : x / sum`. The two loops compose to the guarded
per-entry formula below (`sum` is complete before the second loop reads
it). No max-subtraction stabilization is applied to the argument of
`exp`. -/
def forward_softmax (fexp : ℚ → ℚ) (matrix : Matrix) : Matrix :=
  ⟨matrix.rows, matrix.cols, fun i j =>
    if i < matrix.rows ∧ j < matrix.cols then
      if rowExpSum fexp matrix i = 0 then 0
      else fexp (matrix.entry i j) / rowExpSum fexp matrix i
    else matrix.entry i j⟩

/-- The body of `softmax_jacobian` after its `assert(out_row.rows == 1)`:
`Matrix jacobian(cols, cols)` is zero-initialized (modelled from the spec:
`diag(out_row) − out_row^T · out_row`), the double loop sets
`jacobian[i][j] = out_row[0][j]` exactly when `i == j`, and then
`jacobian = jacobian - (out_row.transpose() * out_row)`. -/
def softmax_jacobian_body (out_row : Matrix) : Matrix :=
  Matrix.sub
    ⟨out_row.cols, out_row.cols, fun i j =>
      if i < out_row.cols ∧ j < out_row.cols ∧ i = j then out_row.entry 0 j else 0⟩
    (Matrix.mul out_row.transpose out_row)

/-- `softmax_jacobian`: `assert(out_row.rows == 1)` then build the C×C
Jacobian; the assertion failure is the `none` case. (The two trailing
asserts on the result dimensions hold by construction.) -/
def softmax_jacobian (out_row : Matrix) : Option Matrix :=
  if out_row.rows = 1 then some (softmax_jacobian_body out_row) else none

/-- `backward_softmax`: asserts same size; `grad` starts as a copy of
`prev_grad`; for each row `i < out.rows` it builds the Jacobian of
`out.get_row(i)` (that argument always has exactly one row, so the inner
assert passes and the body is used directly), multiplies
`prev_grad.get_row(i) * jacobian`, and writes `product[0][j]` into
`grad[i][j]` for `j < out.cols`. -/
def backward_softmax (out : Matrix) (prev_grad : Matrix) : Option Matrix :=
  if prev_grad.same_size out then
    some ⟨prev_grad.rows, prev_grad.cols, fun i j =>
      if i < out.rows ∧ j < out.cols then
        (Matrix.mul (prev_grad.get_row i) (softmax_jacobian_body (out.get_row i))).entry 0 j
      else prev_grad.entry i j⟩
  else none

/-- `forward_activate_matrix`: dispatch on the activation kind. The C++
if-else chain over the closed enumeration becomes an exhaustive match; the
final `assert(false)` branch is unreachable. -/
def forward_activate_matrix (fexp ftanh : ℚ → ℚ) (matrix : Matrix) (a : Activation) : Matrix :=
  match a with
  | .LINEAR => forward_linear matrix
  | .LOGISTIC => forward_logistic fexp matrix
  | .TANH => forward_tanh ftanh matrix
  | .RELU => forward_relu matrix
  | .LRELU => forward_lrelu matrix
  | .SOFTMAX => forward_softmax fexp matrix

/-- `backward_activate_matrix`: dispatch on the activation kind; same
structure as the forward dispatcher. -/
def backward_activate_matrix (out : Matrix) (grad : Matrix) (a : Activation) : Option Matrix :=
  match a with
  | .LINEAR => backward_linear out grad
  | .LOGISTIC => backward_logistic out grad
  | .TANH => backward_tanh out grad
  | .RELU => backward_relu out grad
  | .LRELU => backward_lrelu out grad
  | .SOFTMAX => backward_softmax out grad

/-- The 1×3 row `[-2, 0, 2]` from the spec's concrete ReLU scenario. -/
def reluScenarioInput : Matrix :=
  ⟨1, 3, fun _ j => if j = 0 then -2 else if j = 1 then 0 else 2⟩

/-- A 1×3 row of ones, the `prev_grad` of the spec's concrete ReLU
scenario. -/
def onesRow13 : Matrix :=
  ⟨1, 3, fun _ _ => 1⟩

/-- A 1×1 zero matrix, a concrete input for witnesses. -/
def zeroMatrix11 : Matrix :=
  ⟨1, 1, fun _ _ => 0⟩

/-- A 2×3 matrix of ones, a concrete shape-mismatch partner for
witnesses. -/
def onesMatrix23 : Matrix :=
  ⟨2, 3, fun _ _ => 1⟩

/-- The left fold accumulating `sum += g j` over the columns in order is
the finite sum over the column range. -/
theorem foldl_range_add (g : ℕ → ℚ) (n : ℕ) :
    (List.range n).foldl (fun s j => s + g j) 0 = ∑ j in Finset.range n, g j := by
  induction n with
  | zero => simp
  | succ n ih => rw [List.range_succ, List.foldl_append, ih, Finset.sum_range_succ]; rfl

/-- The accumulated `sum` of `forward_softmax`'s first loop is the sum of
the exponentials of row `i`. -/
theorem rowExpSum_eq_sum (fexp : ℚ → ℚ) (m : Matrix) (i : ℕ) :
    rowExpSum fexp m i = ∑ j in Finset.range m.cols, fexp (m.entry i j) := by
  unfold rowExpSum
  exact foldl_range_add (fun j => fexp (m.entry i j)) m.cols

/-- C1: for every 1×C matrix `out_row`, `softmax_jacobian(out_row)` returns
a C×C matrix `J` with `J[i][j] = out_row[j]·(δ_ij − out_row[i])` for all
`i, j < C` (equivalently `J = diag(out_row) − out_row^T · out_row`). -/
theorem softmax_jacobian_entries (r : Matrix) (h : r.rows = 1) :
    ∃ J, softmax_jacobian r = some J ∧ J.rows = r.cols ∧ J.cols = r.cols ∧
      ∀ i j, i < r.cols → j < r.cols →
        J.entry i j = r.entry 0 j * ((if i = j then (1 : ℚ) else 0) - r.entry 0 i) := by
  refine ⟨softmax_jacobian_body r, by simp [softmax_jacobian, h], rfl, rfl, ?_⟩
  intro i j hi hj
  simp only [softmax_jacobian_body, Matrix.sub, Matrix.mul, Matrix.transpose, h,
    Finset.sum_range_one]
  by_cases hij : i = j
  · simp only [hij, hi, hj, and_self, if_true, if_pos]
    ring
  · simp only [hij, and_false, if_false, if_neg (by tauto : ¬(i < r.cols ∧ j < r.cols ∧ i = j))]
    ring

/-- C8: for every 1×C activated row `r`, the computed Jacobian is symmetric
(`J[i][j] = J[j][i]` for all `i, j < C`) and each diagonal entry equals
`r[i]·(1−r[i])`. -/
theorem softmax_jacobian_symmetric (r : Matrix) (h : r.rows = 1) :
    ∃ J, softmax_jacobian r = some J ∧
      (∀ i j, i < r.cols → j < r.cols → J.entry i j = J.entry j i) ∧
      (∀ i, i < r.cols → J.entry i i = r.entry 0 i * (1 - r.entry 0 i)) := by
  refine ⟨softmax_jacobian_body r, by simp [softmax_jacobian, h], ?_, ?_⟩
  · intro i j hi hj
    simp only [softmax_jacobian_body, Matrix.sub, Matrix.mul, Matrix.transpose, h,
      Finset.sum_range_one]
    by_cases hij : i = j
    · simp [hij]
    · rw [if_neg (by tauto : ¬(i < r.cols ∧ j < r.cols ∧ i = j)),
        if_neg (by tauto : ¬(j < r.cols ∧ i < r.cols ∧ j = i))]
      ring
  · intro i hi
    simp only [softmax_jacobian_body, Matrix.sub, Matrix.mul, Matrix.transpose, h,
      Finset.sum_range_one]
    simp only [hi, and_self, if_true, if_pos]
    ring

/-- C3: `forward_softmax` preserves the shape and, per row, computes
`e[j] = exp(x[j])`, `sum = Σ e`, and `out[j] = e[j]/sum`, except that a row
whose `sum` is exactly zero becomes all zeros; the argument of `exp` is the
raw entry `x[i][j]` (no max-subtraction stabilization). -/
theorem forward_softmax_entries (fexp : ℚ → ℚ) (m : Matrix) (i j : ℕ)
    (hi : i < m.rows) (hj : j < m.cols) :
    (forward_softmax fexp m).rows = m.rows ∧
    (forward_softmax fexp m).cols = m.cols ∧
    (forward_softmax fexp m).entry i j =
      (if (∑ k in Finset.range m.cols, fexp (m.entry i k)) = 0 then 0
       else fexp (m.entry i j) / ∑ k in Finset.range m.cols, fexp (m.entry i k)) := by
  refine ⟨rfl, rfl, ?_⟩
  simp only [forward_softmax, hi, hj, and_self, if_true, if_pos, rowExpSum_eq_sum]

/-- C9: every row of `forward_softmax`'s output sums exactly to 1, unless
that row's exponentials summed to exactly zero, in which case the whole row
is zero. -/
theorem forward_softmax_row_sum (fexp : ℚ → ℚ) (m : Matrix) (i : ℕ) (hi : i < m.rows) :
    (rowExpSum fexp m i ≠ 0 →
        ∑ j in Finset.range m.cols, (forward_softmax fexp m).entry i j = 1) ∧
    (rowExpSum fexp m i = 0 →
        ∀ j, j < m.cols → (forward_softmax fexp m).entry i j = 0) := by
  constructor
  · intro hs
    have hcong : ∀ j ∈ Finset.range m.cols, (forward_softmax fexp m).entry i j
        = fexp (m.entry i j) / rowExpSum fexp m i := by
      intro j hj
      simp [forward_softmax, hi, Finset.mem_range.mp hj, hs]
    rw [Finset.sum_congr rfl hcong, ← Finset.sum_div, ← rowExpSum_eq_sum, div_self hs]
  · intro hs j hj
    simp [forward_softmax, hi, hj, hs]

/-- C2: for same-shape `out` and `prev_grad`, every output row `i` of
`backward_softmax` is the matrix product of the 1×C row `i` of `prev_grad`
with the C×C softmax Jacobian built from row `i` of `out`
(`J[k][j] = out[i][j]·(δ_kj − out[i][k])`), placed into output row `i`. -/
theorem backward_softmax_rows_spec (out prev_grad : Matrix)
    (h : prev_grad.same_size out) :
    ∃ g, backward_softmax out prev_grad = some g ∧
      g.rows = out.rows ∧ g.cols = out.cols ∧
      ∀ i j, i < out.rows → j < out.cols →
        g.entry i j = ∑ k in Finset.range out.cols,
          prev_grad.entry i k *
            (out.entry i j * ((if k = j then (1 : ℚ) else 0) - out.entry i k)) := by
  have h1 : prev_grad.rows = out.rows := h.1
  have h2 : prev_grad.cols = out.cols := h.2
  unfold backward_softmax
  rw [if_pos h]
  refine ⟨_, rfl, h1, h2, ?_⟩
  intro i j hi hj
  dsimp only
  rw [if_pos ⟨hi, hj⟩]
  simp only [Matrix.mul, Matrix.get_row, softmax_jacobian_body, Matrix.sub, Matrix.transpose,
    Finset.sum_range_one, h2]
  refine Finset.sum_congr rfl ?_
  intro k hk
  have hk2 : k < out.cols := Finset.mem_range.mp hk
  by_cases hkj : k = j
  · simp only [hkj, hj, and_self, if_true, if_pos]
    ring
  · rw [if_neg (by tauto : ¬(k < out.cols ∧ j < out.cols ∧ k = j)), if_neg hkj]
    ring

/-- C4: for same-shape `out` and `prev_grad`, each elementwise backward
function returns `grad[i][j] = prev_grad[i][j] · fdot(out[i][j])` with the
derivative evaluated on the activated value: `out·(1−out)` for Logistic,
`1 − out²` for Tanh, `0.01` when `out < 0` else `1` for LeakyReLU, and
`backward_linear` returns `prev_grad` unchanged. -/
theorem backward_elementwise_spec (out prev_grad : Matrix)
    (h : prev_grad.same_size out) :
    backward_linear out prev_grad = some prev_grad ∧
    (∃ g, backward_logistic out prev_grad = some g ∧
      g.rows = prev_grad.rows ∧ g.cols = prev_grad.cols ∧
      ∀ i j, i < prev_grad.rows → j < prev_grad.cols →
        g.entry i j = prev_grad.entry i j * (out.entry i j * (1 - out.entry i j))) ∧
    (∃ g, backward_tanh out prev_grad = some g ∧
      g.rows = prev_grad.rows ∧ g.cols = prev_grad.cols ∧
      ∀ i j, i < prev_grad.rows → j < prev_grad.cols →
        g.entry i j = prev_grad.entry i j * (1 - out.entry i j ^ 2)) ∧
    (∃ g, backward_lrelu out prev_grad = some g ∧
      g.rows = prev_grad.rows ∧ g.cols = prev_grad.cols ∧
      ∀ i j, i < prev_grad.rows → j < prev_grad.cols →
        g.entry i j = prev_grad.entry i j * (if out.entry i j < 0 then 0.01 else 1)) := by
  refine ⟨?_, ?_, ?_, ?_⟩
  · unfold backward_linear
    rw [if_pos h]
  · unfold backward_logistic
    rw [if_pos h]
    refine ⟨_, rfl, rfl, rfl, ?_⟩
    intro i j hi hj
    dsimp only
    rw [if_pos ⟨hi, hj⟩]
  · unfold backward_tanh
    rw [if_pos h]
    refine ⟨_, rfl, rfl, rfl, ?_⟩
    intro i j hi hj
    dsimp only
    rw [if_pos ⟨hi, hj⟩]
  · unfold backward_lrelu
    rw [if_pos h]
    refine ⟨_, rfl, rfl, rfl, ?_⟩
    intro i j hi hj
    dsimp only
    rw [if_pos ⟨hi, hj⟩]

/-- C5, counterexample to the claim as stated: in the concrete scenario the
backward pass receives the *activated* output `[0, 0, 2]` of the input row
`[-2, 0, 2]`; with `prev_grad = [1, 1, 1]` it yields `[1, 1, 1]` — the
first entry is `1`, not `0` as the claim's `[0, 1, 1]` requires. -/
theorem backward_relu_scenario_counterexample :
    Option.map (fun g => (g.entry 0 0, g.entry 0 1, g.entry 0 2))
        (backward_relu (forward_relu reluScenarioInput) onesRow13) = some (1, 1, 1) ∧
    (1 : ℚ) ≠ 0 := by
  constructor
  · norm_num [backward_relu, forward_relu, Matrix.mapEntries, reluScenarioInput,
      onesRow13, Matrix.same_size]
  · norm_num

/-- C5 (amended): `backward_relu` uses the boundary convention `f' = 0`
when `out < 0` and `f' = 1` when `out ≥ 0` (an activated value of exactly 0
maps to derivative 1); for the input row `[-2, 0, 2]`, forward ReLU yields
`[0, 0, 2]`, and backward on that activated output with
`prev_grad = [1, 1, 1]` yields `[1, 1, 1]` (every activated value is ≥ 0,
so no entry is zeroed). -/
theorem backward_relu_boundary_amended :
    (∀ out prev_grad : Matrix, prev_grad.same_size out →
        ∃ g, backward_relu out prev_grad = some g ∧
          ∀ i j, i < prev_grad.rows → j < prev_grad.cols →
            g.entry i j = prev_grad.entry i j * (if out.entry i j < 0 then 0 else 1)) ∧
    ((forward_relu reluScenarioInput).entry 0 0 = 0 ∧
     (forward_relu reluScenarioInput).entry 0 1 = 0 ∧
     (forward_relu reluScenarioInput).entry 0 2 = 2) ∧
    Option.map (fun g => (g.entry 0 0, g.entry 0 1, g.entry 0 2))
        (backward_relu (forward_relu reluScenarioInput) onesRow13) = some (1, 1, 1) := by
  refine ⟨?_, ?_, ?_⟩
  · intro out prev_grad h
    unfold backward_relu
    rw [if_pos h]
    refine ⟨_, rfl, ?_⟩
    intro i j hi hj
    dsimp only
    rw [if_pos ⟨hi, hj⟩]
  · norm_num [forward_relu, Matrix.mapEntries, reluScenarioInput]
  · norm_num [backward_relu, forward_relu, Matrix.mapEntries, reluScenarioInput,
      onesRow13, Matrix.same_size]

/-- C6: for every activation kind and every input matrix,
`forward_activate_matrix` preserves `(rows, cols)`; and for every pair of
same-shape `out` and `grad`, `backward_activate_matrix` succeeds and its
result has the same `(rows, cols)` as `out`. -/
theorem activate_shape_preservation (fexp ftanh : ℚ → ℚ) :
    (∀ (m : Matrix) (a : Activation),
        (forward_activate_matrix fexp ftanh m a).rows = m.rows ∧
        (forward_activate_matrix fexp ftanh m a).cols = m.cols) ∧
    (∀ (out grad : Matrix) (a : Activation), grad.same_size out →
        ∃ g, backward_activate_matrix out grad a = some g ∧
          g.rows = out.rows ∧ g.cols = out.cols) := by
  constructor
  · intro m a
    cases a <;> exact ⟨rfl, rfl⟩
  · intro out grad a h
    cases a
    case LINEAR =>
      unfold backward_activate_matrix backward_linear
      rw [if_pos h]
      exact ⟨_, rfl, h.1, h.2⟩
    case LOGISTIC =>
      unfold backward_activate_matrix backward_logistic
      rw [if_pos h]
      exact ⟨_, rfl, h.1, h.2⟩
    case TANH =>
      unfold backward_activate_matrix backward_tanh
      rw [if_pos h]
      exact ⟨_, rfl, h.1, h.2⟩
    case RELU =>
      unfold backward_activate_matrix backward_relu
      rw [if_pos h]
      exact ⟨_, rfl, h.1, h.2⟩
    case LRELU =>
      unfold backward_activate_matrix backward_lrelu
      rw [if_pos h]
      exact ⟨_, rfl, h.1, h.2⟩
    case SOFTMAX =>
      unfold backward_activate_matrix backward_softmax
      rw [if_pos h]
      exact ⟨_, rfl, h.1, h.2⟩

/-- C7: every backward function fails with the fatal contract error
(returning no partial result, embedded as `none`) whenever the activated
output and the incoming gradient differ in dimensions — including through
the dispatcher for every activation kind — and `softmax_jacobian` fails
whenever its input does not have exactly one row. -/
theorem backward_shape_mismatch_fails (out prev_grad : Matrix)
    (h : ¬ prev_grad.same_size out) (r : Matrix) (hr : r.rows ≠ 1) :
    backward_linear out prev_grad = none ∧
    backward_logistic out prev_grad = none ∧
    backward_tanh out prev_grad = none ∧
    backward_relu out prev_grad = none ∧
    backward_lrelu out prev_grad = none ∧
    backward_softmax out prev_grad = none ∧
    (∀ a, backward_activate_matrix out prev_grad a = none) ∧
    softmax_jacobian r = none := by
  have hlin : backward_linear out prev_grad = none := by
    unfold backward_linear; rw [if_neg h]
  have hlog : backward_logistic out prev_grad = none := by
    unfold backward_logistic; rw [if_neg h]
  have htanh : backward_tanh out prev_grad = none := by
    unfold backward_tanh; rw [if_neg h]
  have hrelu : backward_relu out prev_grad = none := by
    unfold backward_relu; rw [if_neg h]
  have hlrelu : backward_lrelu out prev_grad = none := by
    unfold backward_lrelu; rw [if_neg h]
  have hsoft : backward_softmax out prev_grad = none := by
    unfold backward_softmax; rw [if_neg h]
  refine ⟨hlin, hlog, htanh, hrelu, hlrelu, hsoft, ?_, ?_⟩
  · intro a
    cases a <;> assumption
  · unfold softmax_jacobian
    rw [if_neg hr]

/-- C10: composing the ReLU backward pass with the ReLU forward pass is the
identity on the gradient: `forward_relu`'s output is everywhere ≥ 0 and
`backward_relu` assigns derivative 1 to every activated value ≥ 0
(including exactly 0), so no gradient entry is ever zeroed, even where the
original input was negative. -/
theorem relu_backward_after_forward_id (m g : Matrix) (h : g.same_size m) :
    ∃ g2, backward_relu (forward_relu m) g = some g2 ∧
      ∀ i j, i < m.rows → j < m.cols → g2.entry i j = g.entry i j := by
  have hs : g.same_size (forward_relu m) := ⟨h.1, h.2⟩
  unfold backward_relu
  rw [if_pos hs]
  refine ⟨_, rfl, ?_⟩
  intro i j hi hj
  have hgi : i < g.rows := by rw [h.1]; exact hi
  have hgj : j < g.cols := by rw [h.2]; exact hj
  dsimp only
  rw [if_pos ⟨hgi, hgj⟩]
  have hnn : ¬ (forward_relu m).entry i j < 0 := by
    unfold forward_relu Matrix.mapEntries
    dsimp only
    rw [if_pos ⟨hi, hj⟩]
    by_cases hx : m.entry i j > 0
    · rw [if_pos hx]
      exact not_lt.mpr (le_of_lt hx)
    · rw [if_neg hx]
      exact not_lt.mpr le_rfl
  rw [if_neg hnn, mul_one]

/-- Witness for C1 at the concrete 1×3 row of ones. -/
theorem softmax_jacobian_entries_witness :
    onesRow13.rows = 1 ∧
    ∃ J, softmax_jacobian onesRow13 = some J ∧
      J.rows = onesRow13.cols ∧ J.cols = onesRow13.cols ∧
      ∀ i j, i < onesRow13.cols → j < onesRow13.cols →
        J.entry i j = onesRow13.entry 0 j *
          ((if i = j then (1 : ℚ) else 0) - onesRow13.entry 0 i) :=
  ⟨rfl, softmax_jacobian_entries onesRow13 rfl⟩

/-- Witness for C8 at the concrete 1×3 row of ones. -/
theorem softmax_jacobian_symmetric_witness :
    onesRow13.rows = 1 ∧
    ∃ J, softmax_jacobian onesRow13 = some J ∧
      (∀ i j, i < onesRow13.cols → j < onesRow13.cols → J.entry i j = J.entry j i) ∧
      (∀ i, i < onesRow13.cols →
        J.entry i i = onesRow13.entry 0 i * (1 - onesRow13.entry 0 i)) :=
  ⟨rfl, softmax_jacobian_symmetric onesRow13 rfl⟩

/-- Witness for C3 at the concrete 1×3 row of ones, entry (0, 1), with the
identity in place of `exp`. -/
theorem forward_softmax_entries_witness :
    0 < onesRow13.rows ∧ 1 < onesRow13.cols ∧
    ((forward_softmax id onesRow13).rows = onesRow13.rows ∧
     (forward_softmax id onesRow13).cols = onesRow13.cols ∧
     (forward_softmax id onesRow13).entry 0 1 =
       (if (∑ k in Finset.range onesRow13.cols, id (onesRow13.entry 0 k)) = 0 then 0
        else id (onesRow13.entry 0 1) /
          ∑ k in Finset.range onesRow13.cols, id (onesRow13.entry 0 k))) :=
  ⟨by decide, by decide, forward_softmax_entries id onesRow13 0 1 (by decide) (by decide)⟩

/-- Witness for C9 at the concrete 1×1 zero matrix with the constant-one
function in place of `exp` (row-exponential sum 1 ≠ 0). -/
theorem forward_softmax_row_sum_witness :
    0 < zeroMatrix11.rows ∧
    rowExpSum (fun _ => (1 : ℚ)) zeroMatrix11 0 ≠ 0 ∧
    ∑ j in Finset.range zeroMatrix11.cols,
      (forward_softmax (fun _ => (1 : ℚ)) zeroMatrix11).entry 0 j = 1 := by
  have hs : rowExpSum (fun _ => (1 : ℚ)) zeroMatrix11 0 ≠ 0 := by
    simp [rowExpSum, zeroMatrix11, List.range_succ]
  exact ⟨by decide, hs,
    (forward_softmax_row_sum (fun _ => (1 : ℚ)) zeroMatrix11 0 (by decide)).1 hs⟩

/-- Witness for C2 at the concrete pair of 1×3 rows of ones. -/
theorem backward_softmax_rows_spec_witness :
    onesRow13.same_size onesRow13 ∧
    ∃ g, backward_softmax onesRow13 onesRow13 = some g ∧
      g.rows = onesRow13.rows ∧ g.cols = onesRow13.cols ∧
      ∀ i j, i < onesRow13.rows → j < onesRow13.cols →
        g.entry i j = ∑ k in Finset.range onesRow13.cols,
          onesRow13.entry i k *
            (onesRow13.entry i j * ((if k = j then (1 : ℚ) else 0) - onesRow13.entry i k)) :=
  ⟨by decide, backward_softmax_rows_spec onesRow13 onesRow13 (by decide)⟩

/-- Witness for C4 at the concrete pair of 1×3 rows of ones. -/
theorem backward_elementwise_spec_witness :
    onesRow13.same_size onesRow13 ∧
    (backward_linear onesRow13 onesRow13 = some onesRow13 ∧
     (∃ g, backward_logistic onesRow13 onesRow13 = some g ∧
       g.rows = onesRow13.rows ∧ g.cols = onesRow13.cols ∧
       ∀ i j, i < onesRow13.rows → j < onesRow13.cols →
         g.entry i j = onesRow13.entry i j *
           (onesRow13.entry i j * (1 - onesRow13.entry i j))) ∧
     (∃ g, backward_tanh onesRow13 onesRow13 = some g ∧
       g.rows = onesRow13.rows ∧ g.cols = onesRow13.cols ∧
       ∀ i j, i < onesRow13.rows → j < onesRow13.cols →
         g.entry i j = onesRow13.entry i j * (1 - onesRow13.entry i j ^ 2)) ∧
     (∃ g, backward_lrelu onesRow13 onesRow13 = some g ∧
       g.rows = onesRow13.rows ∧ g.cols = onesRow13.cols ∧
       ∀ i j, i < onesRow13.rows → j < onesRow13.cols →
         g.entry i j = onesRow13.entry i j *
           (if onesRow13.entry i j < 0 then 0.01 else 1))) :=
  ⟨by decide, backward_elementwise_spec onesRow13 onesRow13 (by decide)⟩

/-- Witness for C5 (amended): the general boundary-convention statement
instantiated at the concrete scenario matrices. -/
theorem backward_relu_boundary_amended_witness :
    onesRow13.same_size (forward_relu reluScenarioInput) ∧
    ∃ g, backward_relu (forward_relu reluScenarioInput) onesRow13 = some g ∧
      ∀ i j, i < onesRow13.rows → j < onesRow13.cols →
        g.entry i j = onesRow13.entry i j *
          (if (forward_relu reluScenarioInput).entry i j < 0 then 0 else 1) :=
  ⟨by decide,
    backward_relu_boundary_amended.1 (forward_relu reluScenarioInput) onesRow13 (by decide)⟩

/-- Witness for C6 at the concrete pair of 1×3 rows of ones with the
Softmax kind (and identity stand-ins for `exp` and `tanh`). -/
theorem activate_shape_preservation_witness :
    onesRow13.same_size onesRow13 ∧
    ∃ g, backward_activate_matrix onesRow13 onesRow13 Activation.SOFTMAX = some g ∧
      g.rows = onesRow13.rows ∧ g.cols = onesRow13.cols :=
  ⟨by decide,
    (activate_shape_preservation id id).2 onesRow13 onesRow13 Activation.SOFTMAX (by decide)⟩

/-- Witness for C7 at the concrete mismatched pair (1×3 versus 2×3) and the
2×3 matrix as the malformed Jacobian input. -/
theorem backward_shape_mismatch_fails_witness :
    ¬ onesRow13.same_size onesMatrix23 ∧
    onesMatrix23.rows ≠ 1 ∧
    (backward_linear onesMatrix23 onesRow13 = none ∧
     backward_logistic onesMatrix23 onesRow13 = none ∧
     backward_tanh onesMatrix23 onesRow13 = none ∧
     backward_relu onesMatrix23 onesRow13 = none ∧
     backward_lrelu onesMatrix23 onesRow13 = none ∧
     backward_softmax onesMatrix23 onesRow13 = none ∧
     (∀ a, backward_activate_matrix onesMatrix23 onesRow13 a = none) ∧
     softmax_jacobian onesMatrix23 = none) :=
  ⟨by decide, by decide,
    backward_shape_mismatch_fails onesMatrix23 onesRow13 (by decide) onesMatrix23 (by decide)⟩

/-- Witness for C10 at the concrete scenario input `[-2, 0, 2]` with
gradient `[1, 1, 1]`. -/
theorem relu_backward_after_forward_id_witness :
    onesRow13.same_size reluScenarioInput ∧
    ∃ g2, backward_relu (forward_relu reluScenarioInput) onesRow13 = some g2 ∧
      ∀ i j, i < reluScenarioInput.rows → j < reluScenarioInput.cols →
        g2.entry i j = onesRow13.entry i j :=
  ⟨by decide, relu_backward_after_forward_id reluScenarioInput onesRow13 (by decide)⟩

end HW3
